import Mathlib

/-!
Shallow embedding of the `strnum` derive macro (`src/lib.rs`).

The macro reads a parsed enum declaration (`syn::Data`), classifies each
variant into a `StringOption` record (ident, string label, catch-all flag),
and emits `From<String>` / `From<&str>` (when a catch-all fallback exists)
or `TryFrom<String>` / `TryFrom<&str>` (when none does), plus `Display` and
`From<Enum> for String`.  We embed the classification itself and the
runtime semantics of the emitted match expressions.
-/

/-- Payload shape of one enum variant, mirroring `syn::Fields`:
`Unit`, `Named(fields)`, or `Unnamed(fields)` (kept as the field count,
plus field names for the named case, which is all the macro inspects). -/
inductive Fields where
  | unit : Fields
  | named : List String → Fields
  | unnamed : Nat → Fields
deriving DecidableEq, Repr

/-- One input variant: identifier, metadata annotations (modelled as a list
of key / string-literal-value pairs, which is all `syn_util` extracts), and
the payload shape. -/
structure Variant where
  ident : String
  attrs : List (String × String)
  fields : Fields
deriving DecidableEq, Repr

/-- The external attribute-processing collaborator
`syn_util::get_attribute_value(&attrs, &[key])`: the string literal stored
under `key`, if any. -/
def getAttributeValue (attrs : List (String × String)) (key : String) : Option String :=
  (attrs.find? (fun kv => kv.1 == key)).map (fun kv => kv.2)

/-- The classified variant record `StringOption` from `src/lib.rs`
(the `span` field is provenance only and is omitted). -/
structure StringOption where
  ident : String
  name : String
  catch_all : Bool
deriving DecidableEq, Repr

/-- `impl From<Variant> for StringOption` in `src/lib.rs`, with the panics
turned into `Except.error` carrying the panic message.  The label is the
`#[value = "..."]` literal if present, else the variant identifier; the
variant is a catch-all exactly when its fields are `Unnamed` with at most
one field (`Unit` is not, `Named` panics, `Unnamed` with more than one
field panics). -/
def StringOption.fromVariant (variant : Variant) : Except String StringOption :=
  let name : String := (getAttributeValue variant.attrs "value").getD variant.ident
  match variant.fields with
  | Fields.unit => Except.ok ⟨variant.ident, name, false⟩
  | Fields.named _ => Except.error "Only single unnamed enum field is supported"
  | Fields.unnamed n =>
    if n > 1 then Except.error "Only a single unnamed enum field is supported"
    else Except.ok ⟨variant.ident, name, true⟩

/-- `data.variants.into_iter().map(StringOption::from).collect()`: classify
the variants in declaration order, aborting at the first panicking variant. -/
def classify : List Variant → Except String (List StringOption)
  | [] => Except.ok []
  | v :: rest => do
    let o ← StringOption.fromVariant v
    let os ← classify rest
    Except.ok (o :: os)

/-- The macro input, mirroring `syn::Data`: an enum (with its variants) or
any other declaration shape (struct / union). -/
inductive Data where
  | enumData : List Variant → Data
  | other : Data
deriving DecidableEq, Repr

/-- The semantic content of a successful expansion: the ordered classified
variants and the conversion mode (`has_fallback`). -/
structure Derived where
  options : List StringOption
  hasFallback : Bool
deriving DecidableEq, Repr

/-- The `derive` function from `src/lib.rs`: reject non-enums, classify the
variants, and count the catch-all variants (0 → fallible mode, 1 → total
mode, more → panic). -/
def derive (data : Data) : Except String Derived :=
  match data with
  | Data.enumData variants => do
    let options ← classify variants
    match (options.filter (fun o => o.catch_all)).length with
    | 0 => Except.ok ⟨options, false⟩
    | 1 => Except.ok ⟨options, true⟩
    | _ => Except.error "Only a single catch-all variant is supported"
  | Data.other => Except.error "Can only derive StrNum for enums"

/-- A runtime value of the derived enum: a unit variant's tag, or the
catch-all variant's tag carrying its `String` payload. -/
inductive EnumValue where
  | tag : String → EnumValue
  | payload : String → String → EnumValue
deriving DecidableEq, Repr

/-- The shared match-arm vector of the generated string-to-variant match
expression: one arm per classified variant in declaration order; a
catch-all variant contributes the wildcard arm
`_ => Enum::Ident(value.into())`, every other variant contributes the
literal arm `"label" => Enum::Ident`.  First matching arm wins; `none`
means the match would fall through every arm. -/
def matchValue (options : List StringOption) (value : String) : Option EnumValue :=
  match options with
  | [] => none
  | o :: rest =>
    if o.catch_all then some (EnumValue.payload o.ident value)
    else if value = o.name then some (EnumValue.tag o.ident)
    else matchValue rest value

/-- `String::as_str` on the owned input: the identical character data. -/
def asStr (s : String) : String := s

/-- `str::to_string` on the borrowed input: an owned copy, the identical
character data. -/
def strToOwned (s : String) : String := s

/-- Generated `impl From<String> for Enum` (total mode):
`match value.as_str() { ...arms... }`. -/
def fromOwnedString (options : List StringOption) (value : String) : Option EnumValue :=
  matchValue options (asStr value)

/-- Generated `impl From<&str> for Enum` (total mode):
`match value { ...arms... }`. -/
def fromBorrowedStr (options : List StringOption) (value : String) : Option EnumValue :=
  matchValue options value

/-- Generated `impl TryFrom<String> for Enum` (fallible mode):
`Ok(match value.as_str() { ...arms..., _ => return Err(value) })`. -/
def tryFromOwnedString (options : List StringOption) (value : String) :
    Except String EnumValue :=
  match matchValue options (asStr value) with
  | some v => Except.ok v
  | none => Except.error value

/-- Generated `impl TryFrom<&str> for Enum` (fallible mode):
`Ok(match value { ...arms..., _ => return Err(value.to_string()) })`. -/
def tryFromBorrowedStr (options : List StringOption) (value : String) :
    Except String EnumValue :=
  match matchValue options value with
  | some v => Except.ok v
  | none => Except.error (strToOwned value)

/-- The `\x7b` character, written by code point to keep braces out of
literals. -/
def lbrace : Char := Char.ofNat 123

/-- The `\x7d` character. -/
def rbrace : Char := Char.ofNat 125

/-- Rust format-string interpretation of a literal with no further
arguments, as performed by `write!(f, LITERAL)`: `\x7b\x7b` renders as
`\x7b`, `\x7d\x7d` renders as `\x7d`, and any other occurrence of a brace
(a positional or named argument, or a stray closing brace) does not
compile, modelled as `none`. -/
def processFormat : List Char → Option (List Char)
  | [] => some []
  | c :: rest =>
    if c = lbrace ∨ c = rbrace then
      match rest with
      | c2 :: rest2 =>
        if c2 = c then (processFormat rest2).map (fun r => c :: r) else none
      | [] => none
    else (processFormat rest).map (fun r => c :: r)

/-- `write!(f, s)` for a literal `s` holding no interpolation arguments:
the formatted output, or `none` when the literal is not a valid
argument-free format string. -/
def formatLit (s : String) : Option String :=
  (processFormat s.data).map List.asString

/-- Generated `impl Display for Enum`: one arm per classified variant in
declaration order; a non-catch-all variant's arm is
`Enum::Ident => write!(f, "label")` (the label is used as the format
string), the catch-all variant's arm is
`Enum::Ident(value) => write!(f, "\x7b\x7d", value)`.  `none` means no arm
matched or the label is an invalid format string. -/
def displayValue (options : List StringOption) (v : EnumValue) : Option String :=
  match options with
  | [] => none
  | o :: rest =>
    match v with
    | EnumValue.tag i =>
      if o.catch_all = false ∧ o.ident = i then formatLit o.name
      else displayValue rest (EnumValue.tag i)
    | EnumValue.payload i s =>
      if o.catch_all = true ∧ o.ident = i then some s
      else displayValue rest (EnumValue.payload i s)

/-- Generated `impl From<Enum> for String`: one arm per classified variant
in declaration order; a non-catch-all variant's arm is
`Enum::Ident => "label".to_string()`, the catch-all variant's arm is
`Enum::Ident(value) => value`. -/
def intoString (options : List StringOption) (v : EnumValue) : Option String :=
  match options with
  | [] => none
  | o :: rest =>
    match v with
    | EnumValue.tag i =>
      if o.catch_all = false ∧ o.ident = i then some o.name
      else intoString rest (EnumValue.tag i)
    | EnumValue.payload i s =>
      if o.catch_all = true ∧ o.ident = i then some s
      else intoString rest (EnumValue.payload i s)

/-- Spec-side description of an accepted payload shape: anything except a
named-field payload or a payload of two or more unnamed fields. -/
def fieldsAccepted (f : Fields) : Bool :=
  match f with
  | Fields.unit => true
  | Fields.named _ => false
  | Fields.unnamed n => n ≤ 1

/-- Spec-side description of the payload shapes the classifier marks as
catch-all: an unnamed-field payload with at most one field. -/
def isCatchShape (f : Fields) : Bool :=
  match f with
  | Fields.unnamed n => n ≤ 1
  | _ => false

/-- A string containing neither brace character. -/
def braceFree (s : String) : Prop :=
  ∀ c ∈ s.data, c ≠ lbrace ∧ c ≠ rbrace

instance (s : String) : Decidable (braceFree s) := by
  unfold braceFree; infer_instance

/-- The trigger condition of one generated match arm: a catch-all arm is a
wildcard, any other arm fires on exact label equality. -/
def armTriggers (value : String) (o : StringOption) : Bool :=
  o.catch_all || value == o.name

theorem matchValue_eq_find (options : List StringOption) (value : String) :
    matchValue options value =
      (options.find? (armTriggers value)).map
        (fun o => if o.catch_all then EnumValue.payload o.ident value
                  else EnumValue.tag o.ident) := by
  induction options with
  | nil => rfl
  | cons o rest ih =>
    by_cases hc : o.catch_all
    · simp [matchValue, List.find?, armTriggers, hc]
    · by_cases hn : value = o.name
      · simp [matchValue, List.find?, armTriggers, hc, hn]
      · simp only [matchValue, List.find?, armTriggers]
        rw [if_neg hc, if_neg hn]
        have : (o.catch_all || value == o.name) = false := by
          simp [hc, hn]
        rw [this]
        exact ih

theorem matchValue_append_skip (l1 l2 : List StringOption) (value : String)
    (h : ∀ o ∈ l1, o.catch_all = false ∧ o.name ≠ value) :
    matchValue (l1 ++ l2) value = matchValue l2 value := by
  induction l1 with
  | nil => rfl
  | cons o rest ih =>
    have ho := h o (by simp)
    simp only [List.cons_append, matchValue]
    rw [if_neg (by simp [ho.1]), if_neg (fun hv => ho.2 hv.symm)]
    exact ih (fun o' ho' => h o' (by simp [ho']))

theorem fromVariant_ok_shape (v : Variant) (h : fieldsAccepted v.fields = true) :
    StringOption.fromVariant v =
      Except.ok ⟨v.ident, (getAttributeValue v.attrs "value").getD v.ident,
        isCatchShape v.fields⟩ := by
  cases hf : v.fields with
  | unit => simp [StringOption.fromVariant, hf, isCatchShape]
  | named fs => simp [fieldsAccepted, hf] at h
  | unnamed n =>
    have hn : n ≤ 1 := by simpa [fieldsAccepted, hf] using h
    simp [StringOption.fromVariant, hf, isCatchShape, Nat.not_lt.mpr hn, hn]

theorem fromVariant_err (v : Variant) (h : fieldsAccepted v.fields = false) :
    ∃ m, StringOption.fromVariant v = Except.error m := by
  cases hf : v.fields with
  | unit => simp [fieldsAccepted, hf] at h
  | named fs =>
    refine ⟨"Only single unnamed enum field is supported", ?_⟩
    simp [StringOption.fromVariant, hf]
  | unnamed n =>
    have hn : ¬ (n ≤ 1) := by simpa [fieldsAccepted, hf] using h
    refine ⟨"Only a single unnamed enum field is supported", ?_⟩
    simp [StringOption.fromVariant, hf]
    omega

theorem fromVariant_ok_inv (v : Variant) (o : StringOption)
    (h : StringOption.fromVariant v = Except.ok o) :
    o.ident = v.ident ∧
    o.name = (getAttributeValue v.attrs "value").getD v.ident ∧
    o.catch_all = isCatchShape v.fields ∧
    fieldsAccepted v.fields = true := by
  cases hf : v.fields with
  | unit =>
    simp only [StringOption.fromVariant, hf] at h
    cases h
    simp [isCatchShape, fieldsAccepted]
  | named fs => simp [StringOption.fromVariant, hf] at h
  | unnamed n =>
    simp only [StringOption.fromVariant, hf] at h
    by_cases hn : n > 1
    · rw [if_pos hn] at h; cases h
    · rw [if_neg hn] at h
      cases h
      have hn' : n ≤ 1 := Nat.not_lt.mp hn
      simp [isCatchShape, fieldsAccepted, hn']

theorem classify_cons_def (v : Variant) (rest : List Variant) :
    classify (v :: rest) = Except.bind (StringOption.fromVariant v)
      (fun o => Except.bind (classify rest) (fun os => Except.ok (o :: os))) := rfl

theorem classify_cons (v : Variant) (rest : List Variant) (os : List StringOption)
    (h : classify (v :: rest) = Except.ok os) :
    ∃ o os', StringOption.fromVariant v = Except.ok o ∧
      classify rest = Except.ok os' ∧ os = o :: os' := by
  rw [classify_cons_def] at h
  cases hv : StringOption.fromVariant v with
  | error e => rw [hv] at h; simp [Except.bind] at h
  | ok o =>
    rw [hv] at h
    cases hr : classify rest with
    | error e => rw [hr] at h; simp [Except.bind] at h
    | ok os' =>
      rw [hr] at h
      simp only [Except.bind] at h
      cases h
      exact ⟨o, os', rfl, rfl, rfl⟩

theorem classify_ok_iff (vs : List Variant) :
    (∃ os, classify vs = Except.ok os) ↔ ∀ v ∈ vs, fieldsAccepted v.fields = true := by
  induction vs with
  | nil => simp [classify]
  | cons v rest ih =>
    constructor
    · rintro ⟨os, h⟩ v' hv'
      obtain ⟨o, os', hv, hr, _⟩ := classify_cons v rest os h
      rcases List.mem_cons.mp hv' with h' | h'
      · rw [h']; exact (fromVariant_ok_inv v o hv).2.2.2
      · exact ih.mp ⟨os', hr⟩ v' h'
    · intro h
      obtain ⟨os', hr⟩ := ih.mpr (fun v' hv' => h v' (by simp [hv']))
      refine ⟨⟨v.ident, (getAttributeValue v.attrs "value").getD v.ident,
        isCatchShape v.fields⟩ :: os', ?_⟩
      rw [classify_cons_def, fromVariant_ok_shape v (h v (by simp)), hr]
      rfl

theorem classify_count (vs : List Variant) (os : List StringOption)
    (h : classify vs = Except.ok os) :
    (os.filter (fun o => o.catch_all)).length =
      (vs.filter (fun v => isCatchShape v.fields)).length := by
  induction vs generalizing os with
  | nil =>
    simp only [classify] at h
    cases h; rfl
  | cons v rest ih =>
    obtain ⟨o, os', hv, hr, heq⟩ := classify_cons v rest os h
    subst heq
    have hco := (fromVariant_ok_inv v o hv).2.2.1
    by_cases hc : isCatchShape v.fields = true
    · simp [List.filter, hco, hc, ih os' hr]
    · have hc' : isCatchShape v.fields = false := by
        cases hcc : isCatchShape v.fields
        · rfl
        · exact absurd hcc hc
      simp [List.filter, hco, hc', ih os' hr]

theorem classify_ordered (vs : List Variant) (os : List StringOption)
    (h : classify vs = Except.ok os) :
    os.length = vs.length ∧
      ∀ i (h1 : i < vs.length) (h2 : i < os.length),
        StringOption.fromVariant (vs.get ⟨i, h1⟩) = Except.ok (os.get ⟨i, h2⟩) := by
  induction vs generalizing os with
  | nil =>
    simp only [classify] at h
    cases h
    refine ⟨rfl, ?_⟩
    intro i h1 h2
    simp at h1
  | cons v rest ih =>
    obtain ⟨o, os', hv, hr, heq⟩ := classify_cons v rest os h
    subst heq
    obtain ⟨hlen, hpt⟩ := ih os' hr
    refine ⟨by simp [hlen], ?_⟩
    intro i h1 h2
    cases i with
    | zero => simpa using hv
    | succ j =>
      have hj1 : j < rest.length := by simpa using h1
      have hj2 : j < os'.length := by simpa using h2
      simpa using hpt j hj1 hj2

theorem derive_enum_def (vs : List Variant) :
    derive (Data.enumData vs) = Except.bind (classify vs)
      (fun options =>
        match (options.filter (fun o => o.catch_all)).length with
        | 0 => Except.ok ⟨options, false⟩
        | 1 => Except.ok ⟨options, true⟩
        | _ => Except.error "Only a single catch-all variant is supported") := rfl

theorem derive_enum_ok (vs : List Variant) (d : Derived)
    (h : derive (Data.enumData vs) = Except.ok d) :
    classify vs = Except.ok d.options ∧
      ((d.options.filter (fun o => o.catch_all)).length = 0 ∧ d.hasFallback = false ∨
       (d.options.filter (fun o => o.catch_all)).length = 1 ∧ d.hasFallback = true) := by
  rw [derive_enum_def] at h
  cases hc : classify vs with
  | error e => rw [hc] at h; simp [Except.bind] at h
  | ok os =>
    rw [hc] at h
    simp only [Except.bind] at h
    rcases hn : (os.filter (fun o => o.catch_all)).length with _ | n
    · rw [hn] at h
      cases h
      exact ⟨rfl, Or.inl ⟨hn, rfl⟩⟩
    · cases n with
      | zero =>
        rw [hn] at h
        cases h
        exact ⟨rfl, Or.inr ⟨hn, rfl⟩⟩
      | succ m =>
        rw [hn] at h
        cases h

theorem hasFallback_false_all (vs : List Variant) (d : Derived)
    (h : derive (Data.enumData vs) = Except.ok d) (hf : d.hasFallback = false) :
    ∀ o ∈ d.options, o.catch_all = false := by
  obtain ⟨_, hcount⟩ := derive_enum_ok vs d h
  rcases hcount with ⟨h0, _⟩ | ⟨_, h1⟩
  · intro o ho
    by_contra hc
    have : o ∈ d.options.filter (fun o => o.catch_all) := by
      simp [List.mem_filter, ho]
      cases hcc : o.catch_all
      · exact absurd hcc hc
      · rfl
    rw [List.length_eq_zero] at h0
    simp [h0] at this
  · rw [hf] at h1
    simp at h1

theorem data_asString (s : String) : s.data.asString = s := by
  cases s; rfl

theorem processFormat_braceFree (l : List Char)
    (h : ∀ c ∈ l, c ≠ lbrace ∧ c ≠ rbrace) : processFormat l = some l := by
  induction l with
  | nil => rfl
  | cons c rest ih =>
    have hc := h c (by simp)
    unfold processFormat
    rw [if_neg (by rcases hc with ⟨h1, h2⟩; rintro (h | h) <;> [exact h1 h; exact h2 h])]
    rw [ih (fun c' hc' => h c' (by simp [hc']))]
    rfl

theorem formatLit_braceFree (s : String) (h : braceFree s) : formatLit s = some s := by
  unfold formatLit
  rw [processFormat_braceFree s.data h, Option.map_some', data_asString]

theorem intoString_tag_mem (options : List StringOption) (o : StringOption)
    (hpw : options.Pairwise (fun a b => a.ident ≠ b.ident)) (hmem : o ∈ options)
    (hc : o.catch_all = false) :
    intoString options (EnumValue.tag o.ident) = some o.name := by
  induction options with
  | nil => simp at hmem
  | cons a rest ih =>
    obtain ⟨hne, hpw'⟩ := List.pairwise_cons.mp hpw
    rcases List.mem_cons.mp hmem with heq | hmem'
    · subst heq
      simp [intoString, hc]
    · simp only [intoString]
      rw [if_neg (fun hh => hne o hmem' hh.2)]
      exact ih hpw' hmem'

theorem intoString_payload_mem (options : List StringOption) (o : StringOption) (s : String)
    (hpw : options.Pairwise (fun a b => a.ident ≠ b.ident)) (hmem : o ∈ options)
    (hc : o.catch_all = true) :
    intoString options (EnumValue.payload o.ident s) = some s := by
  induction options with
  | nil => simp at hmem
  | cons a rest ih =>
    obtain ⟨hne, hpw'⟩ := List.pairwise_cons.mp hpw
    rcases List.mem_cons.mp hmem with heq | hmem'
    · subst heq
      simp [intoString, hc]
    · simp only [intoString]
      rw [if_neg (fun hh => hne o hmem' hh.2)]
      exact ih hpw' hmem'

theorem displayValue_tag_mem (options : List StringOption) (o : StringOption)
    (hpw : options.Pairwise (fun a b => a.ident ≠ b.ident)) (hmem : o ∈ options)
    (hc : o.catch_all = false) :
    displayValue options (EnumValue.tag o.ident) = formatLit o.name := by
  induction options with
  | nil => simp at hmem
  | cons a rest ih =>
    obtain ⟨hne, hpw'⟩ := List.pairwise_cons.mp hpw
    rcases List.mem_cons.mp hmem with heq | hmem'
    · subst heq
      simp [displayValue, hc]
    · simp only [displayValue]
      rw [if_neg (fun hh => hne o hmem' hh.2)]
      exact ih hpw' hmem'

theorem displayValue_payload_mem (options : List StringOption) (o : StringOption) (s : String)
    (hpw : options.Pairwise (fun a b => a.ident ≠ b.ident)) (hmem : o ∈ options)
    (hc : o.catch_all = true) :
    displayValue options (EnumValue.payload o.ident s) = some s := by
  induction options with
  | nil => simp at hmem
  | cons a rest ih =>
    obtain ⟨hne, hpw'⟩ := List.pairwise_cons.mp hpw
    rcases List.mem_cons.mp hmem with heq | hmem'
    · subst heq
      simp [displayValue, hc]
    · simp only [displayValue]
      rw [if_neg (fun hh => hne o hmem' hh.2)]
      exact ih hpw' hmem'

theorem intoString_skip_payload (l1 rest : List StringOption) (i s : String)
    (h : ∀ o ∈ l1, o.catch_all = false) :
    intoString (l1 ++ rest) (EnumValue.payload i s) =
      intoString rest (EnumValue.payload i s) := by
  induction l1 with
  | nil => rfl
  | cons a l1' ih =>
    have ha := h a (by simp)
    simp only [List.cons_append, intoString]
    rw [if_neg (fun hh => by rw [ha] at hh; exact absurd hh.1 (by simp))]
    exact ih (fun o ho => h o (by simp [ho]))

theorem matchValue_shadow (l1 l2 : List StringOption) (f o : StringOption)
    (hf : f.catch_all = true)
    (hl1 : ∀ o' ∈ l1, o'.catch_all = false)
    (hid : ∀ o' ∈ l1, o'.ident ≠ o.ident) :
    matchValue (l1 ++ f :: l2) o.name ≠ some (EnumValue.tag o.ident) := by
  induction l1 with
  | nil =>
    simp only [List.nil_append, matchValue, hf, if_true]
    intro hcontra
    exact EnumValue.noConfusion (Option.some.inj hcontra)
  | cons a rest ih =>
    have ha := hl1 a (by simp)
    simp only [List.cons_append, matchValue]
    rw [if_neg (by simp [ha])]
    by_cases hn : o.name = a.name
    · rw [if_pos hn]
      intro hcontra
      have htag := Option.some.inj hcontra
      have : a.ident = o.ident := EnumValue.tag.inj htag
      exact hid a (by simp) this
    · rw [if_neg hn]
      exact ih (fun o' h => hl1 o' (by simp [h])) (fun o' h => hid o' (by simp [h]))

example : StringOption.fromVariant ⟨"One", [], Fields.unit⟩ =
    Except.ok ⟨"One", "One", false⟩ := rfl
example : StringOption.fromVariant ⟨"NewYork", [("value", "New York")], Fields.unit⟩ =
    Except.ok ⟨"NewYork", "New York", false⟩ := rfl
example : StringOption.fromVariant ⟨"Other", [], Fields.unnamed 1⟩ =
    Except.ok ⟨"Other", "Other", true⟩ := rfl
example : derive (Data.enumData [⟨"One", [], Fields.unit⟩, ⟨"Other", [], Fields.unnamed 1⟩]) =
    Except.ok ⟨[⟨"One", "One", false⟩, ⟨"Other", "Other", true⟩], true⟩ := rfl
example : fromOwnedString [⟨"One", "One", false⟩, ⟨"Other", "Other", true⟩] "One" =
    some (EnumValue.tag "One") := rfl
example : fromOwnedString [⟨"One", "One", false⟩, ⟨"Other", "Other", true⟩] "Four" =
    some (EnumValue.payload "Other" "Four") := rfl
example : tryFromOwnedString [⟨"One", "One", false⟩] "four" =
    Except.error "four" := rfl
example : formatLit "abc" = some "abc" := by decide
example : formatLit "a\x7b\x7bb" = some "a\x7bb" := by decide
example : formatLit "a\x7bb" = none := by decide
example : displayValue [⟨"One", "One", false⟩] (EnumValue.tag "One") = some "One" := by decide

theorem fromOwnedString_eq (options : List StringOption) (S : String) :
    fromOwnedString options S = matchValue options S := rfl

theorem tryFromOwnedString_eq (options : List StringOption) (S : String) :
    tryFromOwnedString options S =
      (match matchValue options S with
       | some v => Except.ok v
       | none => Except.error S) := rfl

theorem tryFromBorrowedStr_eq (options : List StringOption) (S : String) :
    tryFromBorrowedStr options S =
      (match matchValue options S with
       | some v => Except.ok v
       | none => Except.error S) := rfl

/-- Claim C1, counterexample.  The claim says the total conversion maps any
string equal to a non-fallback label to that variant's tag; but when the
non-fallback variant is declared after the fallback, the fallback's
wildcard arm shadows it: for the enum `Other(String), One`, converting
`"One"` yields `Other("One")`, not `One`. -/
theorem c1_counterexample :
    derive (Data.enumData [⟨"Other", [], Fields.unnamed 1⟩, ⟨"One", [], Fields.unit⟩]) =
      Except.ok ⟨[⟨"Other", "Other", true⟩, ⟨"One", "One", false⟩], true⟩ ∧
    fromOwnedString [⟨"Other", "Other", true⟩, ⟨"One", "One", false⟩] "One" =
      some (EnumValue.payload "Other" "One") ∧
    EnumValue.payload "Other" "One" ≠ EnumValue.tag "One" :=
  ⟨rfl, rfl, by decide⟩

/-- Claim C1, amended: for an enum with a fallback variant, the generated
string-to-variant conversion produces the tag of the first non-fallback
variant declared BEFORE the fallback whose label equals the input exactly;
if no non-fallback variant declared before the fallback has that label —
in particular when the input equals the fallback's own label or matches
no label — it produces the fallback's tag carrying the input as payload
(and converting that value back to a string returns the input).  The
conversion never fails. -/
theorem c1_fallback_conversion (l1 l2 : List StringOption) (f : StringOption) (S : String)
    (hf : f.catch_all = true) (hl1 : ∀ o ∈ l1, o.catch_all = false) :
    (∃ r, fromOwnedString (l1 ++ f :: l2) S = some r) ∧
    ((∀ o ∈ l1, o.name ≠ S) →
      fromOwnedString (l1 ++ f :: l2) S = some (EnumValue.payload f.ident S) ∧
      intoString (l1 ++ f :: l2) (EnumValue.payload f.ident S) = some S) ∧
    (∀ a b o, l1 = a ++ o :: b → o.name = S → (∀ o' ∈ a, o'.name ≠ S) →
      fromOwnedString (l1 ++ f :: l2) S = some (EnumValue.tag o.ident)) := by
  refine ⟨?_, ?_, ?_⟩
  · rcases hfind : (l1 ++ f :: l2).find? (armTriggers S) with _ | o0
    · exfalso
      exact List.find?_eq_none.mp hfind f (by simp) (by simp [armTriggers, hf])
    · refine ⟨if o0.catch_all then EnumValue.payload o0.ident S
        else EnumValue.tag o0.ident, ?_⟩
      rw [fromOwnedString_eq, matchValue_eq_find, hfind]
      rfl
  · intro hname
    have hskip := matchValue_append_skip l1 (f :: l2) S
      (fun o ho => ⟨hl1 o ho, hname o ho⟩)
    constructor
    · rw [fromOwnedString_eq, hskip]
      simp [matchValue, hf]
    · rw [intoString_skip_payload l1 (f :: l2) f.ident S hl1]
      simp [intoString, hf]
  · intro a b o heq hname ha
    subst heq
    have hassoc : (a ++ o :: b) ++ f :: l2 = a ++ o :: (b ++ f :: l2) := by simp
    rw [fromOwnedString_eq, hassoc,
      matchValue_append_skip a _ S (fun o' ho' => ⟨hl1 o' (by simp [ho']), ha o' ho'⟩)]
    have ho := hl1 o (by simp)
    simp [matchValue, ho, hname]

/-- Witness for C1's amended theorem: for the enum `One, Other(String)`
(one non-fallback variant before the fallback), converting the unmatched
string `"Four"` yields the fallback carrying `"Four"`. -/
theorem c1_fallback_conversion_witness :
    fromOwnedString ([⟨"One", "One", false⟩] ++ ⟨"Other", "Other", true⟩ :: []) "Four" =
      some (EnumValue.payload "Other" "Four") :=
  ((c1_fallback_conversion [⟨"One", "One", false⟩] [] ⟨"Other", "Other", true⟩ "Four" rfl
    (by decide)).2.1 (by decide)).1

/-- Claim C2: in fallible mode (no fallback variant), the generated
try-from conversion succeeds exactly on strings equal to some variant's
label, yielding that variant's tag (first-declared on ties), and fails on
every other string with the original input as the error payload — for
both the owned-string and the borrowed-slice entry points. -/
theorem c2_fallible_tryfrom (vs : List Variant) (d : Derived) (S : String)
    (hder : derive (Data.enumData vs) = Except.ok d) (hfb : d.hasFallback = false) :
    ((∀ o ∈ d.options, o.name ≠ S) →
      tryFromOwnedString d.options S = Except.error S ∧
      tryFromBorrowedStr d.options S = Except.error S) ∧
    ((∃ o ∈ d.options, o.name = S) →
      ∃ o ∈ d.options, o.name = S ∧
        tryFromOwnedString d.options S = Except.ok (EnumValue.tag o.ident) ∧
        tryFromBorrowedStr d.options S = Except.ok (EnumValue.tag o.ident)) := by
  have hall := hasFallback_false_all vs d hder hfb
  constructor
  · intro hno
    have hnone : matchValue d.options S = none := by
      rw [matchValue_eq_find, List.find?_eq_none.mpr ?_]
      · rfl
      · intro o ho
        simp [armTriggers, hall o ho]
        exact fun h => hno o ho h.symm
    constructor
    · rw [tryFromOwnedString_eq, hnone]
    · rw [tryFromBorrowedStr_eq, hnone]
  · rintro ⟨o, ho, hname⟩
    rcases hfind : d.options.find? (armTriggers S) with _ | o0
    · exfalso
      apply List.find?_eq_none.mp hfind o ho
      simp [armTriggers, hname]
    · have hmem := List.mem_of_find?_eq_some hfind
      have hp := List.find?_some hfind
      have hcatch := hall o0 hmem
      have hname0 : o0.name = S := by
        simp [armTriggers, hcatch] at hp
        exact hp.symm
      refine ⟨o0, hmem, hname0, ?_, ?_⟩
      · rw [tryFromOwnedString_eq, matchValue_eq_find, hfind]
        simp [hcatch]
      · rw [tryFromBorrowedStr_eq, matchValue_eq_find, hfind]
        simp [hcatch]

/-- Witness for C2: for the enum `One` with no fallback, `try_from("four")`
fails with payload `"four"` on both entry points. -/
theorem c2_fallible_tryfrom_witness :
    tryFromOwnedString [⟨"One", "One", false⟩] "four" = Except.error "four" ∧
    tryFromBorrowedStr [⟨"One", "One", false⟩] "four" = Except.error "four" :=
  (c2_fallible_tryfrom [⟨"One", [], Fields.unit⟩] ⟨[⟨"One", "One", false⟩], false⟩ "four"
    rfl rfl).1 (by decide)

/-- Claim C3, counterexample.  The claim's corollary says that for every
non-fallback variant declared after the fallback, converting its label
yields the fallback carrying that label; but when a variant declared
BEFORE the fallback shares the label, that earlier arm wins instead:
for `One` (label `"X"`), `Other(String)`, `Two` (label `"X"`), converting
`"X"` yields `One`'s tag, not the fallback carrying `"X"`. -/
theorem c3_counterexample :
    derive (Data.enumData [⟨"One", [("value", "X")], Fields.unit⟩,
        ⟨"Other", [], Fields.unnamed 1⟩, ⟨"Two", [("value", "X")], Fields.unit⟩]) =
      Except.ok ⟨[⟨"One", "X", false⟩, ⟨"Other", "Other", true⟩, ⟨"Two", "X", false⟩],
        true⟩ ∧
    fromOwnedString [⟨"One", "X", false⟩, ⟨"Other", "Other", true⟩, ⟨"Two", "X", false⟩]
        "X" = some (EnumValue.tag "One") ∧
    some (EnumValue.tag "One") ≠ some (EnumValue.payload "Other" "X") :=
  ⟨rfl, rfl, by decide⟩

/-- Claim C3, amended: in total mode the conversion has first-matching-arm
semantics — the result is determined by the first variant, in declaration
order, whose label equals the input or which is the fallback (formalised
through `List.find?`).  Consequently a non-fallback variant declared after
the fallback never yields its own tag, and its label converts to the
fallback carrying that label PROVIDED no variant declared before the
fallback has the same label. -/
theorem c3_first_match_shadowing :
    (∀ (options : List StringOption) (S : String),
      fromOwnedString options S =
        (options.find? (armTriggers S)).map
          (fun o => if o.catch_all then EnumValue.payload o.ident S
                    else EnumValue.tag o.ident)) ∧
    (∀ (l1 l2 : List StringOption) (f o : StringOption),
      f.catch_all = true → (∀ o' ∈ l1, o'.catch_all = false) →
      o ∈ l2 → o.catch_all = false → (∀ o' ∈ l1, o'.ident ≠ o.ident) →
      fromOwnedString (l1 ++ f :: l2) o.name ≠ some (EnumValue.tag o.ident) ∧
      ((∀ o' ∈ l1, o'.name ≠ o.name) →
        fromOwnedString (l1 ++ f :: l2) o.name =
          some (EnumValue.payload f.ident o.name))) := by
  constructor
  · intro options S
    rw [fromOwnedString_eq]
    exact matchValue_eq_find options S
  · intro l1 l2 f o hf hl1 _ _ hid
    constructor
    · rw [fromOwnedString_eq]
      exact matchValue_shadow l1 l2 f o hf hl1 hid
    · intro hname
      rw [fromOwnedString_eq,
        matchValue_append_skip l1 (f :: l2) o.name (fun o' ho' => ⟨hl1 o' ho', hname o' ho'⟩)]
      simp [matchValue, hf]

/-- Witness for C3's amended theorem: for `Other(String), Two`, the label
`"Two"` converts to `Other("Two")`, never to `Two`'s own tag. -/
theorem c3_first_match_shadowing_witness :
    fromOwnedString ([] ++ ⟨"Other", "Other", true⟩ :: [⟨"Two", "Two", false⟩]) "Two" ≠
      some (EnumValue.tag "Two") ∧
    fromOwnedString ([] ++ ⟨"Other", "Other", true⟩ :: [⟨"Two", "Two", false⟩]) "Two" =
      some (EnumValue.payload "Other" "Two") := by
  have h := c3_first_match_shadowing.2 [] [⟨"Two", "Two", false⟩]
    ⟨"Other", "Other", true⟩ ⟨"Two", "Two", false⟩ rfl (by simp) (by simp) rfl (by simp)
  exact ⟨h.1, h.2 (by simp)⟩

/-- Claim C4, counterexample.  The claim says declaration order affects
conversion results only when two non-fallback variants share a label; but
with all labels unique, permuting the fallback relative to a non-fallback
variant changes the result: `Other(String), One` maps `"One"` to
`Other("One")` while `One, Other(String)` maps it to `One`. -/
theorem c4_counterexample :
    fromOwnedString [⟨"Other", "Other", true⟩, ⟨"One", "One", false⟩] "One" =
      some (EnumValue.payload "Other" "One") ∧
    fromOwnedString [⟨"One", "One", false⟩, ⟨"Other", "Other", true⟩] "One" =
      some (EnumValue.tag "One") ∧
    some (EnumValue.payload "Other" "One") ≠ some (EnumValue.tag "One") ∧
    [(⟨"Other", "Other", true⟩ : StringOption), ⟨"One", "One", false⟩].Perm
      [⟨"One", "One", false⟩, ⟨"Other", "Other", true⟩] ∧
    ("Other" : String) ≠ "One" :=
  ⟨rfl, rfl, by decide, List.Perm.swap _ _ _, by decide⟩

/-- Claim C4, amended: classification preserves the declaration order of
the input variants (pointwise); on duplicate labels the first-declared
non-fallback variant wins; and swapping two adjacent non-fallback variants
with distinct labels never changes a conversion result — but the position
of the fallback DOES matter even with unique labels (its wildcard arm
shadows every variant declared after it, see C3). -/
theorem c4_declaration_order (L : String) :
    (∀ (vs : List Variant) (os : List StringOption), classify vs = Except.ok os →
      os.length = vs.length ∧
        ∀ i (h1 : i < vs.length) (h2 : i < os.length),
          StringOption.fromVariant (vs.get ⟨i, h1⟩) = Except.ok (os.get ⟨i, h2⟩)) ∧
    (∀ (l1 : List StringOption) (o1 : StringOption) (rest : List StringOption),
      (∀ o ∈ l1, o.catch_all = false ∧ o.name ≠ L) →
      o1.catch_all = false → o1.name = L →
      fromOwnedString (l1 ++ o1 :: rest) L = some (EnumValue.tag o1.ident)) ∧
    (∀ (l1 : List StringOption) (a b : StringOption) (l2 : List StringOption),
      a.catch_all = false → b.catch_all = false → a.name ≠ b.name →
      fromOwnedString (l1 ++ a :: b :: l2) L = fromOwnedString (l1 ++ b :: a :: l2) L) := by
  refine ⟨classify_ordered, ?_, ?_⟩
  · intro l1 o1 rest h1 hc hn
    rw [fromOwnedString_eq, matchValue_append_skip l1 (o1 :: rest) L h1]
    simp [matchValue, hc, hn]
  · intro l1 a b l2 hca hcb hne
    rw [fromOwnedString_eq, fromOwnedString_eq]
    induction l1 with
    | nil =>
      simp only [List.nil_append, matchValue, hca, hcb, if_false]
      by_cases hLa : L = a.name
      · have hLb : ¬ L = b.name := fun hLb => hne (hLa ▸ hLb ▸ rfl)
        simp [hLa, hLb, hne]
      · by_cases hLb : L = b.name
        · simp [hLa, hLb, Ne.symm hne]
        · simp [hLa, hLb]
    | cons o l1' ih =>
      simp only [List.cons_append, matchValue]
      by_cases hc : o.catch_all
      · simp [hc]
      · by_cases hLo : L = o.name
        · simp [hc, hLo]
        · simp only [hc, if_false, hLo]
          exact ih

/-- Witness for C4's amended theorem: with unique labels `"One"`, `"Two"`
and no fallback in front, converting `"Two"` yields `Two`'s tag whether
`Two` is declared before or after `One`. -/
theorem c4_declaration_order_witness :
    fromOwnedString ([] ++ (⟨"One", "One", false⟩ : StringOption) ::
        ⟨"Two", "Two", false⟩ :: []) "Two" =
      fromOwnedString ([] ++ (⟨"Two", "Two", false⟩ : StringOption) ::
        ⟨"One", "One", false⟩ :: []) "Two" :=
  (c4_declaration_order "Two").2.2 [] ⟨"One", "One", false⟩ ⟨"Two", "Two", false⟩ []
    rfl rfl (by decide)

/-- Claim C5, counterexample.  The claim says a variant is classified as
fallback exactly when its payload is exactly one unnamed field; but the
classifier also marks a tuple variant with ZERO unnamed fields (`A()`) as
catch-all: `Fields::Unnamed` is only rejected for more than one field. -/
theorem c5_counterexample :
    ¬ (∀ (v : Variant) (o : StringOption),
        StringOption.fromVariant v = Except.ok o →
        (o.catch_all = true ↔ v.fields = Fields.unnamed 1)) := by
  intro hclaim
  have h := (hclaim ⟨"A", [], Fields.unnamed 0⟩ ⟨"A", "A", true⟩ rfl).mp rfl
  exact absurd h (by decide)

/-- Claim C5, amended: the classifier marks a variant as the fallback
(catch-all) if and only if its payload shape is an unnamed-field payload
with at most one field (zero or one); a variant with no payload at all
(`Fields::Unit`) and every other accepted shape is non-fallback. -/
theorem c5_fallback_shape (v : Variant) (o : StringOption)
    (h : StringOption.fromVariant v = Except.ok o) :
    o.catch_all = true ↔ isCatchShape v.fields = true := by
  rw [(fromVariant_ok_inv v o h).2.2.1]

/-- Witness for C5's amended theorem at the single-unnamed-field variant
`Other(String)`. -/
theorem c5_fallback_shape_witness :
    (⟨"Other", "Other", true⟩ : StringOption).catch_all = true ↔
      isCatchShape (Fields.unnamed 1) = true :=
  c5_fallback_shape ⟨"Other", [], Fields.unnamed 1⟩ ⟨"Other", "Other", true⟩ rfl

/-- Claim C6, counterexample.  The claim lists the abort conditions as:
not an enum, a named-field payload, two or more unnamed fields, or more
than one variant with EXACTLY ONE unnamed field.  But an enum with two
zero-field tuple variants `A(), B()` — which meets none of those
conditions — still aborts, because both are counted as catch-all
variants. -/
theorem c6_counterexample :
    derive (Data.enumData [⟨"A", [], Fields.unnamed 0⟩, ⟨"B", [], Fields.unnamed 0⟩]) =
      Except.error "Only a single catch-all variant is supported" ∧
    (([(⟨"A", [], Fields.unnamed 0⟩ : Variant), ⟨"B", [], Fields.unnamed 0⟩].filter
        (fun v => v.fields = Fields.unnamed 1)).length = 0) ∧
    (∀ v ∈ [(⟨"A", [], Fields.unnamed 0⟩ : Variant), ⟨"B", [], Fields.unnamed 0⟩],
        fieldsAccepted v.fields = true) :=
  ⟨rfl, by decide, by decide⟩

/-- Claim C6, amended: expansion succeeds if and only if the input is an
enum, every variant's payload is accepted (no named fields, at most one
unnamed field), and at most one variant has a catch-all shape (an
unnamed-field payload with AT MOST one field, zero-field tuple variants
included); with several catch-all-shaped variants the abort message is
`Only a single catch-all variant is supported` (capitalised, unlike the
claim's quotation). -/
theorem c6_abort_conditions (data : Data) :
    ((∃ d, derive data = Except.ok d) ↔
      (∃ vs, data = Data.enumData vs ∧
        (∀ v ∈ vs, fieldsAccepted v.fields = true) ∧
        (vs.filter (fun v => isCatchShape v.fields)).length ≤ 1)) ∧
    (∀ vs, data = Data.enumData vs →
      (∀ v ∈ vs, fieldsAccepted v.fields = true) →
      1 < (vs.filter (fun v => isCatchShape v.fields)).length →
      derive data = Except.error "Only a single catch-all variant is supported") := by
  constructor
  · cases data with
    | other =>
      constructor
      · rintro ⟨d, hd⟩
        exact absurd hd (by simp [derive])
      · rintro ⟨vs, hvs, -⟩
        exact absurd hvs (by simp)
    | enumData vs =>
      constructor
      · rintro ⟨d, hd⟩
        obtain ⟨hc, hcount⟩ := derive_enum_ok vs d hd
        refine ⟨vs, rfl, (classify_ok_iff vs).mp ⟨d.options, hc⟩, ?_⟩
        rw [← classify_count vs d.options hc]
        rcases hcount with ⟨h0, -⟩ | ⟨h1, -⟩
        · omega
        · omega
      · rintro ⟨vs', hvs', hacc, hcount⟩
        obtain rfl : vs = vs' := by injection hvs'
        obtain ⟨os, hos⟩ := (classify_ok_iff vs).mpr hacc
        have hn := classify_count vs os hos
        rw [derive_enum_def, hos]
        simp only [Except.bind]
        rcases hlen : (os.filter (fun o => o.catch_all)).length with _ | n
        · rw [hlen]
          exact ⟨⟨os, false⟩, rfl⟩
        · cases n with
          | zero =>
            rw [hlen]
            exact ⟨⟨os, true⟩, rfl⟩
          | succ m => omega
  · intro vs hvs hacc hcount
    subst hvs
    obtain ⟨os, hos⟩ := (classify_ok_iff vs).mpr hacc
    have hn := classify_count vs os hos
    rw [derive_enum_def, hos]
    simp only [Except.bind]
    rcases hlen : (os.filter (fun o => o.catch_all)).length with _ | n
    · omega
    · cases n with
      | zero => omega
      | succ m =>
        rw [hlen]
        rfl

/-- Witness for C6's amended theorem: the single-variant enum `One`
expands successfully. -/
theorem c6_abort_conditions_witness :
    ∃ d, derive (Data.enumData [⟨"One", [], Fields.unit⟩]) = Except.ok d :=
  (c6_abort_conditions (Data.enumData [⟨"One", [], Fields.unit⟩])).1.mpr
    ⟨[⟨"One", [], Fields.unit⟩], rfl, by decide, by decide⟩

/-- Claim C7: the label of every variant is resolved independently of its
siblings — the `value` annotation's string literal verbatim when present,
otherwise the variant identifier's text; annotations under any other key
are ignored (prepending one changes nothing). -/
theorem c7_label_resolution (v : Variant) (o : StringOption)
    (h : StringOption.fromVariant v = Except.ok o) :
    ((∀ kv ∈ v.attrs, kv.1 ≠ "value") → o.name = v.ident) ∧
    (∀ s, getAttributeValue v.attrs "value" = some s → o.name = s) ∧
    (∀ k lit, k ≠ "value" →
      (StringOption.fromVariant ⟨v.ident, (k, lit) :: v.attrs, v.fields⟩).map
        (fun o' => o'.name) = Except.ok o.name) := by
  obtain ⟨-, hname, -, hacc⟩ := fromVariant_ok_inv v o h
  refine ⟨?_, ?_, ?_⟩
  · intro hnone
    rw [hname]
    have : v.attrs.find? (fun kv => kv.1 == "value") = none := by
      rw [List.find?_eq_none]
      intro kv hkv
      simp [hnone kv hkv]
    simp [getAttributeValue, this]
  · intro s hs
    rw [hname, hs]
    rfl
  · intro k lit hk
    have hskip : getAttributeValue ((k, lit) :: v.attrs) "value" =
        getAttributeValue v.attrs "value" := by
      have hbeq : (k == "value") = false := by simp [hk]
      simp [getAttributeValue, List.find?, hbeq]
    have hacc' : fieldsAccepted (⟨v.ident, (k, lit) :: v.attrs, v.fields⟩ : Variant).fields
        = true := hacc
    rw [fromVariant_ok_shape _ hacc']
    simp only [Except.map]
    rw [hname]
    simp [hskip]

/-- Witness for C7 at the annotated variant `#[value = "New York"] NewYork`. -/
theorem c7_label_resolution_witness :
    (⟨"NewYork", "New York", false⟩ : StringOption).name = "New York" :=
  (c7_label_resolution ⟨"NewYork", [("name", "x"), ("value", "New York")], Fields.unit⟩
    ⟨"NewYork", "New York", false⟩ rfl).2.1 "New York" rfl

/-- Claim C8, counterexample.  The claim says Display rendering and the
consuming conversion are byte-identical and render exactly the label; but
the generated Display arm uses the label as a `write!` FORMAT string, so a
label containing brace characters is unescaped: for a variant with label
`\x7b\x7b` (two opening braces), Display prints a single `\x7b` while
`From<Enum> for String` yields `\x7b\x7b`. -/
theorem c8_counterexample :
    derive (Data.enumData [⟨"A", [("value", "\x7b\x7b")], Fields.unit⟩]) =
      Except.ok ⟨[⟨"A", "\x7b\x7b", false⟩], false⟩ ∧
    displayValue [⟨"A", "\x7b\x7b", false⟩] (EnumValue.tag "A") = some "\x7b" ∧
    intoString [⟨"A", "\x7b\x7b", false⟩] (EnumValue.tag "A") = some "\x7b\x7b" ∧
    ("\x7b" : String) ≠ "\x7b\x7b" :=
  ⟨rfl, by decide, by decide, by decide⟩

/-- Claim C8, amended: for every variant value of the derived enum (with
the enum's distinct variant identifiers), the consuming conversion yields
exactly the variant's label (non-fallback) or the carried payload
(fallback) with no transformation; Display yields the payload exactly for
the fallback, and for a non-fallback variant it yields the label
interpreted as an argument-free format string — byte-identical to the
label whenever the label contains no brace characters. -/
theorem c8_render_consume (options : List StringOption) (o : StringOption) (s : String)
    (hpw : options.Pairwise (fun a b => a.ident ≠ b.ident)) (hmem : o ∈ options) :
    (o.catch_all = false →
      intoString options (EnumValue.tag o.ident) = some o.name ∧
      displayValue options (EnumValue.tag o.ident) = formatLit o.name ∧
      (braceFree o.name → displayValue options (EnumValue.tag o.ident) = some o.name)) ∧
    (o.catch_all = true →
      intoString options (EnumValue.payload o.ident s) = some s ∧
      displayValue options (EnumValue.payload o.ident s) = some s) := by
  constructor
  · intro hc
    refine ⟨intoString_tag_mem options o hpw hmem hc,
      displayValue_tag_mem options o hpw hmem hc, ?_⟩
    intro hbf
    rw [displayValue_tag_mem options o hpw hmem hc, formatLit_braceFree o.name hbf]
  · intro hc
    exact ⟨intoString_payload_mem options o s hpw hmem hc,
      displayValue_payload_mem options o s hpw hmem hc⟩

/-- Witness for C8's amended theorem: in `One, Other(String)`, the value
`One` renders and converts to `"One"` on both paths. -/
theorem c8_render_consume_witness :
    intoString [⟨"One", "One", false⟩, ⟨"Other", "Other", true⟩] (EnumValue.tag "One") =
      some "One" ∧
    displayValue [⟨"One", "One", false⟩, ⟨"Other", "Other", true⟩] (EnumValue.tag "One") =
      some "One" := by
  have h := (c8_render_consume [⟨"One", "One", false⟩, ⟨"Other", "Other", true⟩]
    ⟨"One", "One", false⟩ "x" (by decide) (by decide)).1 rfl
  exact ⟨h.1, h.2.2 (by decide)⟩

/-- Claim C9: for any input string, the owned-string and borrowed-slice
entry points of the same derived enum yield identical results, in total
mode (`From<String>` vs `From<&str>`) and in fallible mode
(`TryFrom<String>` vs `TryFrom<&str>`, error payloads included). -/
theorem c9_owned_borrowed (options : List StringOption) (S : String) :
    fromOwnedString options S = fromBorrowedStr options S ∧
    tryFromOwnedString options S = tryFromBorrowedStr options S :=
  ⟨rfl, rfl⟩

/-- Claim C10, counterexample.  The claim says named-field variants and
multi-unnamed-field variants abort with the SAME message, quoted as
`only a single unnamed field is supported`; but the code's two messages
differ from each other (`Only single unnamed enum field is supported`
vs `Only a single unnamed enum field is supported`) and neither equals
the quoted text. -/
theorem c10_counterexample :
    StringOption.fromVariant ⟨"A", [], Fields.named ["x"]⟩ =
      Except.error "Only single unnamed enum field is supported" ∧
    StringOption.fromVariant ⟨"B", [], Fields.unnamed 2⟩ =
      Except.error "Only a single unnamed enum field is supported" ∧
    ("Only single unnamed enum field is supported" : String) ≠
      "Only a single unnamed enum field is supported" ∧
    ("Only single unnamed enum field is supported" : String) ≠
      "only a single unnamed field is supported" ∧
    ("Only a single unnamed enum field is supported" : String) ≠
      "only a single unnamed field is supported" :=
  ⟨rfl, rfl, by decide, by decide, by decide⟩

/-- Claim C10, amended: a named-field variant aborts expansion with
`Only single unnamed enum field is supported`, and a variant with two or
more unnamed fields aborts with the slightly different message
`Only a single unnamed enum field is supported`. -/
theorem c10_distinct_messages (v : Variant) :
    (∀ fs, v.fields = Fields.named fs →
      StringOption.fromVariant v =
        Except.error "Only single unnamed enum field is supported") ∧
    (∀ n, v.fields = Fields.unnamed n → 2 ≤ n →
      StringOption.fromVariant v =
        Except.error "Only a single unnamed enum field is supported") := by
  constructor
  · intro fs hf
    simp [StringOption.fromVariant, hf]
  · intro n hf hn
    have hgt : n > 1 := by omega
    simp [StringOption.fromVariant, hf, hgt]

/-- Witness for C10's amended theorem at a named-field variant and a
two-unnamed-field variant. -/
theorem c10_distinct_messages_witness :
    StringOption.fromVariant ⟨"C", [], Fields.named ["y", "z"]⟩ =
      Except.error "Only single unnamed enum field is supported" ∧
    StringOption.fromVariant ⟨"D", [], Fields.unnamed 3⟩ =
      Except.error "Only a single unnamed enum field is supported" :=
  ⟨(c10_distinct_messages ⟨"C", [], Fields.named ["y", "z"]⟩).1 ["y", "z"] rfl,
   (c10_distinct_messages ⟨"D", [], Fields.unnamed 3⟩).2 3 rfl (by decide)⟩
